import Mathlib

/-!
# Offline sync queue — verification of the specification against the source

Shallow embedding of `OfflineSyncService` (the offline synchronization queue
of the point-of-sale frontend).  The embedded operations are
`loadSyncQueue`, `addToSyncQueue`, `getSyncQueue`, `removeFromSyncQueue` and
`syncWhenOnline`, together with a model of the IndexedDB object store
`syncQueue` (key path `id`) that backs them.

Modelling conventions:

* A `PendingSync` record mirrors the source interface; the `data : any`
  payload is a type parameter `α` because the queue never inspects it.
* The IndexedDB object store is a list of records kept in ascending key
  order (IndexedDB stores records sorted by key and `getAll` returns them
  in key order).  `add` fails on a duplicate key or when the backend write
  fails (the `writeOk` oracle); `delete` is idempotent and total.
* JavaScript reference mutation (`item.retries++` mutates the object shared
  between the replay snapshot and the live `syncQueue` array) is modelled
  by an id-keyed update of the live queue; this is faithful whenever the
  queued ids are distinct, which the id generator guarantees and which the
  theorems assume explicitly where it matters.
* `syncWhenOnline` is modelled in its online branch (the offline branch
  merely registers an event listener and performs no queue action).
  A promise that rejects is the `error` case of `Except`; the submit
  callback's three observable outcomes (resolve `true`, resolve `false`,
  reject/throw) are the constructors of `SubmitOutcome`.
-/

/-- `type` field of a `PendingSync` record:
`'transaction' | 'inventory' | 'customer' | 'product'`. -/
inductive SyncType where
  | transaction
  | inventory
  | customer
  | product
deriving DecidableEq, Repr

/-- `action` field of a `PendingSync` record: `'create' | 'update' | 'delete'`. -/
inductive SyncAction where
  | create
  | update
  | delete
deriving DecidableEq, Repr

/-- The `PendingSync` interface of the source.  `α` is the opaque payload
type of the `data : any` field. -/
structure PendingSync (α : Type) where
  id : String
  type : SyncType
  action : SyncAction
  data : α
  timestamp : Nat
  retries : Nat
deriving DecidableEq, Repr

/-- Outcome of one call of the caller-supplied `syncFunction`:
the promise resolves `true`, resolves `false`, or rejects (throws). -/
inductive SubmitOutcome where
  | accepted
  | rejected
  | raised
deriving DecidableEq, Repr

/-- State of the `OfflineSyncService` after initialization: the records of
the IndexedDB object store `syncQueue` (in ascending key order) and the
in-memory mirror `this.syncQueue`. -/
structure SyncState (α : Type) where
  store : List (PendingSync α)
  syncQueue : List (PendingSync α)
deriving DecidableEq, Repr

/-- Lexicographic order on character lists, by code point — the IndexedDB
key order for the string keys used here. -/
def charListLt : List Char → List Char → Bool
  | [], [] => false
  | [], _ :: _ => true
  | _ :: _, [] => false
  | a :: as, b :: bs => if a < b then true else if b < a then false else charListLt as bs

/-- Key order on record ids (string keys compare lexicographically). -/
def idLt (a b : String) : Bool :=
  charListLt a.data b.data

/-- Insert a record into the key-ordered record list of the object store
(IndexedDB keeps records sorted by key). -/
def storeInsert {α : Type} : List (PendingSync α) → PendingSync α → List (PendingSync α)
  | [], it => [it]
  | r :: rs, it => if idLt it.id r.id then it :: r :: rs else r :: storeInsert rs it

/-- `store.delete(id)`: removes the record with the given key; deleting an
absent key succeeds (IndexedDB `delete` is idempotent). -/
def storeDelete {α : Type} (s : List (PendingSync α)) (i : String) : List (PendingSync α) :=
  s.filter (fun r => r.id ≠ i)

/-- `store.getAll()`: all records in ascending key order (the order the
store list is kept in). -/
def storeGetAll {α : Type} (s : List (PendingSync α)) : List (PendingSync α) := s

/-- `loadSyncQueue`: replaces the in-memory mirror with `store.getAll()`. -/
def loadSyncQueue {α : Type} (st : SyncState α) : SyncState α :=
  { st with syncQueue := storeGetAll st.store }

/-- A page reload: `init` re-opens the database (the store survives, the
in-memory mirror starts empty) and then runs `loadSyncQueue`. -/
def reload {α : Type} (st : SyncState α) : SyncState α :=
  loadSyncQueue { store := st.store, syncQueue := [] }

/-- Failure of `addToSyncQueue`: the promise rejects with the request error
of `store.add` (backend failure or duplicate key). -/
inductive StorageFailure where
  | writeFailed
deriving DecidableEq, Repr

/-- `addToSyncQueue(type, action, data)`.  The generated id and timestamp
(`Date.now()` / `Math.random()`) enter as parameters `i` and `ts`; the
`writeOk` oracle says whether the backend write succeeds.  `store.add`
rejects on a duplicate key or backend failure, in which case nothing is
pushed onto the in-memory mirror; on success the record is stored, the
item is pushed, and its id is returned. -/
def mkOp {α : Type} (i : String) (t : SyncType) (a : SyncAction) (d : α) (ts : Nat) :
    PendingSync α :=
  { id := i, type := t, action := a, data := d, timestamp := ts, retries := 0 }

def addToSyncQueue {α : Type} (st : SyncState α) (writeOk : Bool) (i : String)
    (t : SyncType) (a : SyncAction) (d : α) (ts : Nat) :
    Except StorageFailure String × SyncState α :=
  let syncItem : PendingSync α := mkOp i t a d ts
  if writeOk ∧ ∀ r ∈ st.store, r.id ≠ i then
    (Except.ok i,
      { store := storeInsert st.store syncItem,
        syncQueue := st.syncQueue ++ [syncItem] })
  else
    (Except.error StorageFailure.writeFailed, st)

instance {α : Type} (st : SyncState α) (writeOk : Bool) (i : String) :
    Decidable (writeOk ∧ ∀ r ∈ st.store, r.id ≠ i) :=
  inferInstance

/-- `getSyncQueue()`: a snapshot copy of the in-memory mirror. -/
def getSyncQueue {α : Type} (st : SyncState α) : List (PendingSync α) :=
  st.syncQueue

/-- `removeFromSyncQueue(id)`: deletes the record from the object store and
filters it out of the in-memory mirror.  Total (never throws). -/
def removeFromSyncQueue {α : Type} (st : SyncState α) (i : String) : SyncState α :=
  { store := storeDelete st.store i,
    syncQueue := st.syncQueue.filter (fun item => item.id ≠ i) }

/-- `x.retries++`: the record with its retry counter incremented. -/
def bumpItem {α : Type} (x : PendingSync α) : PendingSync α :=
  { x with retries := x.retries + 1 }

/-- `item.retries++` on the object with the given id, as seen through the
live `syncQueue` array (the snapshot and the array share the object). -/
def bumpRetries {α : Type} (q : List (PendingSync α)) (i : String) : List (PendingSync α) :=
  q.map (fun x => if x.id = i then bumpItem x else x)

/-- One iteration of the `for (const item of queue)` loop of
`syncWhenOnline`, acting on the live state:
* resolve `true`  → `removeFromSyncQueue(item.id)`;
* resolve `false` → `item.retries++`, then if `item.retries > 5` also
  `removeFromSyncQueue(item.id)`;
* reject/throw    → `item.retries++` only (the catch block). -/
def syncStep {α : Type} (f : PendingSync α → SubmitOutcome) (st : SyncState α)
    (it : PendingSync α) : SyncState α :=
  match f it with
  | SubmitOutcome.accepted => removeFromSyncQueue st it.id
  | SubmitOutcome.rejected =>
      let st1 : SyncState α := { st with syncQueue := bumpRetries st.syncQueue it.id }
      if it.retries + 1 > 5 then removeFromSyncQueue st1 it.id else st1
  | SubmitOutcome.raised => { st with syncQueue := bumpRetries st.syncQueue it.id }

/-- The loop of `syncWhenOnline` over the snapshot list, also recording the
items on which the submit callback is invoked, in invocation order. -/
def syncRun {α : Type} (f : PendingSync α → SubmitOutcome) :
    SyncState α → List (PendingSync α) → SyncState α × List (PendingSync α)
  | st, [] => (st, [])
  | st, it :: l =>
      let p := syncRun f (syncStep f st it) l
      (p.1, it :: p.2)

/-- `syncWhenOnline(syncFunction)` in its online branch: take the snapshot
`queue = this.getSyncQueue()` and process it item by item. -/
def syncWhenOnline {α : Type} (f : PendingSync α → SubmitOutcome) (st : SyncState α) :
    SyncState α :=
  (syncRun f st (getSyncQueue st)).1

/-- The items on which one `syncWhenOnline` invocation calls the submit
callback, in order. -/
def syncAttempts {α : Type} (f : PendingSync α → SubmitOutcome) (st : SyncState α) :
    List (PendingSync α) :=
  (syncRun f st (getSyncQueue st)).2

example :
    let op : PendingSync Unit :=
      { id := "a", type := SyncType.transaction, action := SyncAction.create,
        data := (), timestamp := 0, retries := 0 }
    (syncWhenOnline (fun _ => SubmitOutcome.rejected)
      { store := [op], syncQueue := [op] }).syncQueue
      = [{ op with retries := 1 }] := by
  decide

example :
    let op : PendingSync Unit :=
      { id := "a", type := SyncType.transaction, action := SyncAction.create,
        data := (), timestamp := 0, retries := 5 }
    (syncWhenOnline (fun _ => SubmitOutcome.rejected)
      { store := [op], syncQueue := [op] }).syncQueue = [] := by
  decide

/-- Net effect of one loop iteration on the live-queue entry carrying the
processed item's id: `none` means the entry is removed, `some y` means the
entry becomes `y`. -/
def stepEffect {α : Type} (f : PendingSync α → SubmitOutcome) (it : PendingSync α) :
    Option (PendingSync α) :=
  match f it with
  | SubmitOutcome.accepted => none
  | SubmitOutcome.rejected =>
      if it.retries + 1 > 5 then none else some (bumpItem it)
  | SubmitOutcome.raised => some (bumpItem it)

theorem filter_keep {α : Type} {q : List (PendingSync α)} {i : String}
    (h : ∀ x ∈ q, x.id ≠ i) : q.filter (fun x => x.id ≠ i) = q := by
  refine List.filter_eq_self.mpr ?_
  intro a ha
  simpa using h a ha

theorem bumpRetries_of_not_mem {α : Type} {q : List (PendingSync α)} {i : String}
    (h : ∀ x ∈ q, x.id ≠ i) : bumpRetries q i = q := by
  unfold bumpRetries
  have h2 : ∀ x ∈ q, (if x.id = i then bumpItem x else x) = id x := by
    intro x hx
    simp [h x hx]
  rw [List.map_congr_left h2, List.map_id]

theorem filter_remove_append_cons {α : Type} {r l : List (PendingSync α)}
    {it : PendingSync α} {i : String} (hit : it.id = i)
    (hr : ∀ x ∈ r, x.id ≠ i) (hl : ∀ y ∈ l, y.id ≠ i) :
    (r ++ it :: l).filter (fun x => x.id ≠ i) = r ++ l := by
  rw [List.filter_append, filter_keep hr]
  rw [List.filter_cons_of_neg (by simp [hit])]
  rw [filter_keep hl]

theorem bump_append_cons {α : Type} {r l : List (PendingSync α)}
    {it : PendingSync α} (hr : ∀ x ∈ r, x.id ≠ it.id) (hl : ∀ y ∈ l, y.id ≠ it.id) :
    bumpRetries (r ++ it :: l) it.id = r ++ bumpItem it :: l := by
  have h1 : bumpRetries r it.id = r := bumpRetries_of_not_mem hr
  have h2 : bumpRetries l it.id = l := bumpRetries_of_not_mem hl
  unfold bumpRetries at h1 h2 ⊢
  rw [List.map_append, h1, List.map_cons, if_pos rfl, h2]

/-- One replay pass over the rest `l` of the snapshot, with live queue
`r ++ l` (`r` holding the already-processed survivors): the final queue
applies `stepEffect` to each snapshot item in place. -/
theorem syncRun_queue_eq {α : Type} (f : PendingSync α → SubmitOutcome)
    (l : List (PendingSync α)) :
    ∀ (r s : List (PendingSync α)),
      (∀ x ∈ r, ∀ y ∈ l, x.id ≠ y.id) →
      (l.map PendingSync.id).Nodup →
      (syncRun f { store := s, syncQueue := r ++ l } l).1.syncQueue
        = r ++ l.filterMap (stepEffect f) := by
  induction l with
  | nil => intro r s _ _; simp [syncRun]
  | cons it l ih =>
      intro r s hdisj hnodup
      have hsimp : (∀ x ∈ l, ¬ x.id = it.id) ∧ (l.map PendingSync.id).Nodup := by
        simpa using hnodup
      have hl_it : ∀ y ∈ l, y.id ≠ it.id := hsimp.1
      have hnodup' : (l.map PendingSync.id).Nodup := hsimp.2
      have hr_it : ∀ x ∈ r, x.id ≠ it.id :=
        fun x hx => hdisj x hx it (List.mem_cons_self it l)
      have hdisj' : ∀ x ∈ r, ∀ y ∈ l, x.id ≠ y.id :=
        fun x hx y hy => hdisj x hx y (List.mem_cons_of_mem it hy)
      simp only [syncRun]
      cases hf : f it with
      | accepted =>
          have hq : (r ++ it :: l).filter (fun item => item.id ≠ it.id) = r ++ l :=
            filter_remove_append_cons rfl hr_it hl_it
          have hstep :
              syncStep f { store := s, syncQueue := r ++ it :: l } it
                = { store := storeDelete s it.id, syncQueue := r ++ l } := by
            simp only [syncStep, hf, removeFromSyncQueue]
            rw [hq]
          rw [hstep, ih r (storeDelete s it.id) hdisj' hnodup']
          simp [stepEffect, hf]
      | rejected =>
          by_cases hgt : it.retries + 1 > 5
          · have hb : bumpRetries (r ++ it :: l) it.id = r ++ bumpItem it :: l :=
              bump_append_cons hr_it hl_it
            have hq : (r ++ bumpItem it :: l).filter (fun item => item.id ≠ it.id) = r ++ l :=
              filter_remove_append_cons rfl hr_it hl_it
            have hstep :
                syncStep f { store := s, syncQueue := r ++ it :: l } it
                  = { store := storeDelete s it.id, syncQueue := r ++ l } := by
              simp only [syncStep, hf]
              rw [if_pos hgt]
              simp only [removeFromSyncQueue]
              rw [hb, hq]
            rw [hstep, ih r (storeDelete s it.id) hdisj' hnodup']
            simp [stepEffect, hf, hgt]
          · have hb : bumpRetries (r ++ it :: l) it.id = r ++ bumpItem it :: l :=
              bump_append_cons hr_it hl_it
            have hstep :
                syncStep f { store := s, syncQueue := r ++ it :: l } it
                  = { store := s, syncQueue := (r ++ [bumpItem it]) ++ l } := by
              simp only [syncStep, hf]
              rw [if_neg hgt]
              rw [hb]
              simp
            have hdisj2 : ∀ x ∈ r ++ [bumpItem it], ∀ y ∈ l, x.id ≠ y.id := by
              intro x hx y hy
              rcases List.mem_append.mp hx with hx1 | hx2
              · exact hdisj' x hx1 y hy
              · have hxb : x = bumpItem it := by simpa using hx2
                subst hxb
                exact fun he => hl_it y hy (by simpa [bumpItem] using he.symm)
            rw [hstep, ih (r ++ [bumpItem it]) s hdisj2 hnodup']
            simp [stepEffect, hf, hgt]
      | raised =>
          have hb : bumpRetries (r ++ it :: l) it.id = r ++ bumpItem it :: l :=
            bump_append_cons hr_it hl_it
          have hstep :
              syncStep f { store := s, syncQueue := r ++ it :: l } it
                = { store := s, syncQueue := (r ++ [bumpItem it]) ++ l } := by
            simp only [syncStep, hf]
            rw [hb]
            simp
          have hdisj2 : ∀ x ∈ r ++ [bumpItem it], ∀ y ∈ l, x.id ≠ y.id := by
            intro x hx y hy
            rcases List.mem_append.mp hx with hx1 | hx2
            · exact hdisj' x hx1 y hy
            · have hxb : x = bumpItem it := by simpa using hx2
              subst hxb
              exact fun he => hl_it y hy (by simpa [bumpItem] using he.symm)
          rw [hstep, ih (r ++ [bumpItem it]) s hdisj2 hnodup']
          simp [stepEffect, hf]

/-- Characterization of one `syncWhenOnline` invocation on the in-memory
queue, for a queue with pairwise-distinct ids. -/
theorem syncWhenOnline_queue_eq {α : Type} (f : PendingSync α → SubmitOutcome)
    (st : SyncState α) (h : (st.syncQueue.map PendingSync.id).Nodup) :
    (syncWhenOnline f st).syncQueue = st.syncQueue.filterMap (stepEffect f) := by
  have hrun := syncRun_queue_eq f st.syncQueue [] st.store (by simp) h
  simpa [syncWhenOnline, getSyncQueue] using hrun

/-- The submit callback is invoked exactly on the snapshot items, in order. -/
theorem syncRun_log {α : Type} (f : PendingSync α → SubmitOutcome) :
    ∀ (l : List (PendingSync α)) (st : SyncState α), (syncRun f st l).2 = l := by
  intro l
  induction l with
  | nil => intro st; rfl
  | cons it l ih => intro st; simp [syncRun, ih]

theorem syncAttempts_eq {α : Type} (f : PendingSync α → SubmitOutcome) (st : SyncState α) :
    syncAttempts f st = getSyncQueue st :=
  syncRun_log f (getSyncQueue st) st

/-- One loop iteration never adds to the durable store: it leaves it
unchanged or deletes one record. -/
theorem syncStep_store_sublist {α : Type} (f : PendingSync α → SubmitOutcome)
    (st : SyncState α) (it : PendingSync α) :
    (syncStep f st it).store.Sublist st.store := by
  cases hf : f it with
  | accepted =>
      simp only [syncStep, hf, removeFromSyncQueue, storeDelete]
      exact List.filter_sublist st.store
  | rejected =>
      simp only [syncStep, hf]
      by_cases hgt : it.retries + 1 > 5
      · rw [if_pos hgt]
        simp only [removeFromSyncQueue, storeDelete]
        exact List.filter_sublist st.store
      · rw [if_neg hgt]
  | raised =>
      simp only [syncStep, hf]
      exact List.Sublist.refl _

theorem syncRun_store_sublist {α : Type} (f : PendingSync α → SubmitOutcome) :
    ∀ (l : List (PendingSync α)) (st : SyncState α),
      (syncRun f st l).1.store.Sublist st.store := by
  intro l
  induction l with
  | nil => intro st; exact List.Sublist.refl _
  | cons it l ih =>
      intro st
      simp only [syncRun]
      exact (ih (syncStep f st it)).trans (syncStep_store_sublist f st it)

/-- One `syncWhenOnline` invocation only ever deletes durable records; it
never inserts or rewrites one (retry counts are not persisted). -/
theorem syncWhenOnline_store_sublist {α : Type} (f : PendingSync α → SubmitOutcome)
    (st : SyncState α) : (syncWhenOnline f st).store.Sublist st.store :=
  syncRun_store_sublist f (getSyncQueue st) st

/-- Inserting a record whose key is not below any present key appends it. -/
theorem storeInsert_append {α : Type} (it : PendingSync α) :
    ∀ (s : List (PendingSync α)), (∀ r ∈ s, idLt it.id r.id = false) →
      storeInsert s it = s ++ [it] := by
  intro s
  induction s with
  | nil => intro _; rfl
  | cons r rs ih =>
      intro h
      have hr : idLt it.id r.id = false := h r (List.mem_cons_self r rs)
      have hrs : ∀ x ∈ rs, idLt it.id x.id = false :=
        fun x hx => h x (List.mem_cons_of_mem r hx)
      simp [storeInsert, hr, ih hrs]

/-- Repeated invocation of `syncWhenOnline` with the same submit callback. -/
def replayIter {α : Type} (f : PendingSync α → SubmitOutcome) :
    Nat → SyncState α → SyncState α
  | 0, st => st
  | k + 1, st => replayIter f k (syncWhenOnline f st)

theorem replayIter_succ_right {α : Type} (f : PendingSync α → SubmitOutcome) :
    ∀ (k : Nat) (st : SyncState α),
      replayIter f (k + 1) st = syncWhenOnline f (replayIter f k st) := by
  intro k
  induction k with
  | zero => intro st; rfl
  | succ k ih =>
      intro st
      have h1 : replayIter f (k + 1 + 1) st = replayIter f (k + 1) (syncWhenOnline f st) := rfl
      rw [h1, ih (syncWhenOnline f st)]
      rfl

/-- A pass in which every item is rejected and no retry count reaches the
ceiling: every queue entry survives with its counter incremented. -/
theorem pass_rejected_uniform {α : Type} (f : PendingSync α → SubmitOutcome)
    (hfr : ∀ it, f it = SubmitOutcome.rejected) (st : SyncState α) (k : Nat)
    (hn : (st.syncQueue.map PendingSync.id).Nodup)
    (hu : ∀ x ∈ st.syncQueue, x.retries = k) (hk : k + 1 ≤ 5) :
    (syncWhenOnline f st).syncQueue
      = st.syncQueue.map (fun x => { x with retries := k + 1 }) := by
  rw [syncWhenOnline_queue_eq _ _ hn]
  have hno : ¬ (k + 1 > 5) := Nat.not_lt.mpr hk
  have hcongr : ∀ x ∈ st.syncQueue,
      stepEffect f x = (fun y : PendingSync α => some { y with retries := k + 1 }) x := by
    intro x hx
    have hxr : x.retries = k := hu x hx
    simp [stepEffect, hfr x, bumpItem, hxr, hno]
  rw [List.filterMap_congr hcongr]
  exact congrFun (List.filterMap_eq_map (fun y : PendingSync α => { y with retries := k + 1 }))
    st.syncQueue

/-- A pass in which every item is rejected and every retry count is at the
ceiling: every queue entry is dropped. -/
theorem pass_rejected_drop {α : Type} (f : PendingSync α → SubmitOutcome)
    (hfr : ∀ it, f it = SubmitOutcome.rejected) (st : SyncState α)
    (hn : (st.syncQueue.map PendingSync.id).Nodup)
    (hu : ∀ x ∈ st.syncQueue, x.retries = 5) :
    (syncWhenOnline f st).syncQueue = [] := by
  rw [syncWhenOnline_queue_eq _ _ hn]
  refine List.filterMap_eq_nil_iff.mpr ?_
  intro x hx
  simp [stepEffect, hfr x, hu x hx]

/-- `k` always-rejected passes over a queue of uniform retry count `j`,
staying below the ceiling: every entry survives, its counter raised by `k`. -/
theorem replayIter_rejected_le {α : Type} (f : PendingSync α → SubmitOutcome)
    (hfr : ∀ it, f it = SubmitOutcome.rejected) :
    ∀ (k j : Nat), k + j ≤ 5 →
      ∀ (st : SyncState α),
        (st.syncQueue.map PendingSync.id).Nodup →
        (∀ x ∈ st.syncQueue, x.retries = j) →
        (replayIter f k st).syncQueue
          = st.syncQueue.map (fun x => { x with retries := j + k }) := by
  intro k
  induction k with
  | zero =>
      intro j _ st _ hu
      have h2 : ∀ x ∈ st.syncQueue,
          (fun x : PendingSync α => { x with retries := j + 0 }) x = id x := by
        intro x hx
        have hxr := hu x hx
        cases x
        simp_all
      show st.syncQueue = _
      rw [List.map_congr_left h2, List.map_id]
  | succ k ih =>
      intro j hkj st hn hu
      have hj1 : j + 1 ≤ 5 := by omega
      have hq' : (syncWhenOnline f st).syncQueue
          = st.syncQueue.map (fun x => { x with retries := j + 1 }) :=
        pass_rejected_uniform f hfr st j hn hu hj1
      have hids : ((syncWhenOnline f st).syncQueue).map PendingSync.id
          = st.syncQueue.map PendingSync.id := by
        rw [hq', List.map_map]
        rfl
      have hn' : (((syncWhenOnline f st).syncQueue).map PendingSync.id).Nodup := by
        rw [hids]; exact hn
      have hu' : ∀ x ∈ (syncWhenOnline f st).syncQueue, x.retries = j + 1 := by
        intro x hx
        rw [hq'] at hx
        rcases List.mem_map.mp hx with ⟨y, _, rfl⟩
        rfl
      have hrec := ih (j + 1) (by omega) (syncWhenOnline f st) hn' hu'
      show (replayIter f k (syncWhenOnline f st)).syncQueue = _
      rw [hrec, hq', List.map_map]
      refine List.map_congr_left ?_
      intro x _
      simp only [Function.comp]
      rw [show j + 1 + k = j + (k + 1) from by omega]

/-- A concrete sample operation used to instantiate the theorems. -/
def opA : PendingSync Unit :=
  { id := "a", type := SyncType.transaction, action := SyncAction.create,
    data := (), timestamp := 0, retries := 0 }

/-- C1 (amended): if the submit callback always resolves `false`, every
freshly enqueued operation (retry count 0, distinct ids) is still queued
after each of the first 5 replay invocations — carrying retry count `k`
after the `k`-th — and is removed during the 6th invocation, the one whose
increment makes its retry count exceed 5: never fewer than 6 invocations,
never more. -/
theorem C1_bounded_retry_amended {α : Type} (f : PendingSync α → SubmitOutcome)
    (hfr : ∀ it, f it = SubmitOutcome.rejected) (st : SyncState α)
    (hn : (st.syncQueue.map PendingSync.id).Nodup)
    (h0 : ∀ x ∈ st.syncQueue, x.retries = 0) :
    (∀ k, k ≤ 5 → (replayIter f k st).syncQueue
        = st.syncQueue.map (fun x => { x with retries := k }))
    ∧ (replayIter f 6 st).syncQueue = [] := by
  have hle : ∀ k, k ≤ 5 → (replayIter f k st).syncQueue
      = st.syncQueue.map (fun x => { x with retries := k }) := by
    intro k hk
    have hmain := replayIter_rejected_le f hfr k 0 (by omega) st hn h0
    simpa using hmain
  refine ⟨hle, ?_⟩
  have h5 := hle 5 (by omega)
  rw [replayIter_succ_right f 5 st]
  have hids : ((replayIter f 5 st).syncQueue).map PendingSync.id
      = st.syncQueue.map PendingSync.id := by
    rw [h5, List.map_map]
    rfl
  have hn5 : (((replayIter f 5 st).syncQueue).map PendingSync.id).Nodup := by
    rw [hids]; exact hn
  have hu5 : ∀ x ∈ (replayIter f 5 st).syncQueue, x.retries = 5 := by
    intro x hx
    rw [h5] at hx
    rcases List.mem_map.mp hx with ⟨y, _, rfl⟩
    rfl
  exact pass_rejected_drop f hfr _ hn5 hu5

/-- C1: the claim as stated is false on the code — with an always-`false`
submit callback, a fresh operation is still queued after 5 replay
invocations (its retry count is then 5, which does not exceed 5), and it is
removed only by the 6th invocation. -/
theorem C1_bounded_retry_counterexample :
    (replayIter (fun _ => SubmitOutcome.rejected) 5
        { store := [opA], syncQueue := [opA] }).syncQueue
      = [{ opA with retries := 5 }]
    ∧ (replayIter (fun _ => SubmitOutcome.rejected) 6
        { store := [opA], syncQueue := [opA] }).syncQueue = [] := by
  decide

theorem C1_bounded_retry_witness :
    (∀ k, k ≤ 5 → (replayIter (fun _ => SubmitOutcome.rejected) k
        ({ store := [opA], syncQueue := [opA] } : SyncState Unit)).syncQueue
        = [opA].map (fun x => { x with retries := k }))
    ∧ (replayIter (fun _ => SubmitOutcome.rejected) 6
        ({ store := [opA], syncQueue := [opA] } : SyncState Unit)).syncQueue = [] :=
  C1_bounded_retry_amended (fun _ => SubmitOutcome.rejected) (fun _ => rfl)
    { store := [opA], syncQueue := [opA] } (by decide) (by decide)

/-- C2: the claim as stated is false on the code — a throwing submit is not
treated identically to a `false` result.  The catch block only increments
the retry count and never removes the item: an item at retry count 5
survives a throwing pass (count becomes 6), while the same pass with a
`false`-resolving callback removes it. -/
theorem C2_raise_counterexample :
    (syncWhenOnline (fun _ => SubmitOutcome.raised)
        ({ store := [{ opA with retries := 5 }],
           syncQueue := [{ opA with retries := 5 }] } : SyncState Unit)).syncQueue
      = [{ opA with retries := 6 }]
    ∧ (syncWhenOnline (fun _ => SubmitOutcome.rejected)
        ({ store := [{ opA with retries := 5 }],
           syncQueue := [{ opA with retries := 5 }] } : SyncState Unit)).syncQueue
      = [] := by
  decide

/-- C2 (amended): when the submit callback throws/rejects for an operation,
its retry count is incremented and the operation always stays queued for
that invocation — even when the new count exceeds the ceiling of 5;
removal on exceeding the ceiling happens only on a `false` resolution. -/
theorem C2_raise_amended {α : Type} (f : PendingSync α → SubmitOutcome)
    (hfr : ∀ it, f it = SubmitOutcome.raised) (st : SyncState α)
    (hn : (st.syncQueue.map PendingSync.id).Nodup) :
    (syncWhenOnline f st).syncQueue = st.syncQueue.map bumpItem := by
  rw [syncWhenOnline_queue_eq _ _ hn]
  have hcongr : ∀ x ∈ st.syncQueue,
      stepEffect f x = (fun y : PendingSync α => some (bumpItem y)) x := by
    intro x _
    simp [stepEffect, hfr x]
  rw [List.filterMap_congr hcongr]
  exact congrFun (List.filterMap_eq_map bumpItem) st.syncQueue

theorem C2_raise_witness :
    (syncWhenOnline (fun _ => SubmitOutcome.raised)
        ({ store := [{ opA with retries := 5 }],
           syncQueue := [{ opA with retries := 5 }] } : SyncState Unit)).syncQueue
      = [{ opA with retries := 5 }].map bumpItem :=
  C2_raise_amended (fun _ => SubmitOutcome.raised) (fun _ => rfl)
    { store := [{ opA with retries := 5 }], syncQueue := [{ opA with retries := 5 }] }
    (by decide)

/-- A second and third concrete sample operation. -/
def opB : PendingSync Unit :=
  { id := "b", type := SyncType.inventory, action := SyncAction.update,
    data := (), timestamp := 1, retries := 0 }

def opC : PendingSync Unit :=
  { id := "c", type := SyncType.customer, action := SyncAction.delete,
    data := (), timestamp := 2, retries := 0 }

/-- A queue-facing operation of the service: an enqueue (with the id and
timestamp the generator produced and the write oracle) or a remove. -/
inductive QueueOp (α : Type) where
  | enq (writeOk : Bool) (i : String) (t : SyncType) (a : SyncAction) (d : α) (ts : Nat)
  | rem (i : String)

/-- Run a sequence of queue operations from a state, collecting the
successfully enqueued records in order. -/
def runOps {α : Type} : SyncState α → List (QueueOp α) → SyncState α × List (PendingSync α)
  | st, [] => (st, [])
  | st, QueueOp.enq ok i t a d ts :: ops =>
      let r := addToSyncQueue st ok i t a d ts
      let p := runOps r.2 ops
      match r.1 with
      | Except.ok _ => (p.1, mkOp i t a d ts :: p.2)
      | Except.error _ => p
  | st, QueueOp.rem i :: ops => runOps (removeFromSyncQueue st i) ops

/-- Success and failure equations for `addToSyncQueue`. -/
theorem addToSyncQueue_pos {α : Type} {st : SyncState α} {ok : Bool} {i : String}
    {t : SyncType} {a : SyncAction} {d : α} {ts : Nat}
    (hc : ok = true ∧ ∀ r ∈ st.store, r.id ≠ i) :
    addToSyncQueue st ok i t a d ts
      = (Except.ok i,
         { store := storeInsert st.store (mkOp i t a d ts),
           syncQueue := st.syncQueue ++ [mkOp i t a d ts] }) := by
  simp only [addToSyncQueue]
  rw [if_pos hc]

theorem addToSyncQueue_neg {α : Type} {st : SyncState α} {ok : Bool} {i : String}
    {t : SyncType} {a : SyncAction} {d : α} {ts : Nat}
    (hc : ¬ (ok = true ∧ ∀ r ∈ st.store, r.id ≠ i)) :
    addToSyncQueue st ok i t a d ts = (Except.error StorageFailure.writeFailed, st) := by
  simp only [addToSyncQueue]
  rw [if_neg hc]

/-- C3: FIFO order — after any interleaving of enqueues and removes, the
in-memory queue is a subsequence of the initial queue followed by the
successfully enqueued records in enqueue order: survivors appear exactly
in their original enqueue order and no operation ever reorders entries. -/
theorem C3_fifo_order {α : Type} :
    ∀ (ops : List (QueueOp α)) (st : SyncState α),
      ((runOps st ops).1.syncQueue).Sublist (st.syncQueue ++ (runOps st ops).2) := by
  intro ops
  induction ops with
  | nil => intro st; simp [runOps]
  | cons op ops ih =>
      intro st
      cases op with
      | enq ok i t a d ts =>
          by_cases hc : (ok = true ∧ ∀ r ∈ st.store, r.id ≠ i)
          · have hfst : (addToSyncQueue st ok i t a d ts).1 = Except.ok i := by
              rw [addToSyncQueue_pos hc]
            have hq2 : (addToSyncQueue st ok i t a d ts).2.syncQueue
                = st.syncQueue ++ [mkOp i t a d ts] := by
              rw [addToSyncQueue_pos hc]
            simp only [runOps, hfst]
            refine List.Sublist.trans (ih _) ?_
            rw [hq2, List.append_assoc, List.singleton_append]
          · have hfst : (addToSyncQueue st ok i t a d ts).1
                = Except.error StorageFailure.writeFailed := by
              rw [addToSyncQueue_neg hc]
            have hsnd : (addToSyncQueue st ok i t a d ts).2 = st := by
              rw [addToSyncQueue_neg hc]
            simp only [runOps, hfst, hsnd]
            exact ih st
      | rem i =>
          have h1 := ih (removeFromSyncQueue st i)
          have h2 : ((removeFromSyncQueue st i).syncQueue
              ++ (runOps (removeFromSyncQueue st i) ops).2).Sublist
              (st.syncQueue ++ (runOps (removeFromSyncQueue st i) ops).2) := by
            refine List.Sublist.append ?_ (List.Sublist.refl _)
            exact List.filter_sublist st.syncQueue
          simp only [runOps]
          exact h1.trans h2

/-- C4: at-least-once delivery — if the submit callback always resolves
`true`, a single replay invocation empties the queue, and the callback is
invoked exactly once per queued operation, in enqueue (FIFO) order. -/
theorem C4_at_least_once {α : Type} (f : PendingSync α → SubmitOutcome)
    (hfa : ∀ it, f it = SubmitOutcome.accepted) (st : SyncState α)
    (hn : (st.syncQueue.map PendingSync.id).Nodup) :
    (syncWhenOnline f st).syncQueue = [] ∧ syncAttempts f st = getSyncQueue st := by
  refine ⟨?_, syncAttempts_eq f st⟩
  rw [syncWhenOnline_queue_eq _ _ hn]
  refine List.filterMap_eq_nil_iff.mpr ?_
  intro x _
  simp [stepEffect, hfa x]

theorem C4_at_least_once_witness :
    (syncWhenOnline (fun _ => SubmitOutcome.accepted)
        ({ store := [opA, opB], syncQueue := [opA, opB] } : SyncState Unit)).syncQueue = []
    ∧ syncAttempts (fun _ => SubmitOutcome.accepted)
        ({ store := [opA, opB], syncQueue := [opA, opB] } : SyncState Unit)
      = getSyncQueue { store := [opA, opB], syncQueue := [opA, opB] } :=
  C4_at_least_once (fun _ => SubmitOutcome.accepted) (fun _ => rfl)
    { store := [opA, opB], syncQueue := [opA, opB] } (by decide)

/-- C9: within one replay invocation the submit callback is invoked on
exactly the start-of-pass snapshot, once per item in order; with distinct
queued ids, no id is attempted more than once whatever the outcomes are. -/
theorem C9_attempt_once_per_pass {α : Type} (f : PendingSync α → SubmitOutcome)
    (st : SyncState α) (hn : (st.syncQueue.map PendingSync.id).Nodup) :
    syncAttempts f st = getSyncQueue st
    ∧ ∀ i : String, ((syncAttempts f st).map PendingSync.id).count i ≤ 1 := by
  refine ⟨syncAttempts_eq f st, ?_⟩
  intro i
  rw [syncAttempts_eq f st]
  exact List.nodup_iff_count_le_one.mp hn i

theorem C9_attempt_once_per_pass_witness :
    syncAttempts (fun _ => SubmitOutcome.raised)
        ({ store := [opA, opB], syncQueue := [opA, opB] } : SyncState Unit)
      = getSyncQueue { store := [opA, opB], syncQueue := [opA, opB] }
    ∧ ∀ i : String,
        ((syncAttempts (fun _ => SubmitOutcome.raised)
            ({ store := [opA, opB], syncQueue := [opA, opB] } : SyncState Unit)).map
          PendingSync.id).count i ≤ 1 :=
  C9_attempt_once_per_pass (fun _ => SubmitOutcome.raised)
    { store := [opA, opB], syncQueue := [opA, opB] } (by decide)

theorem syncStep_store_accepted {α : Type} (f : PendingSync α → SubmitOutcome)
    (st : SyncState α) (it : PendingSync α) (h : f it = SubmitOutcome.accepted) :
    (syncStep f st it).store = storeDelete st.store it.id := by
  simp [syncStep, h, removeFromSyncQueue]

theorem syncStep_store_rejected_small {α : Type} (f : PendingSync α → SubmitOutcome)
    (st : SyncState α) (it : PendingSync α) (h : f it = SubmitOutcome.rejected)
    (hr : ¬ it.retries + 1 > 5) : (syncStep f st it).store = st.store := by
  simp only [syncStep, h]
  rw [if_neg hr]

/-- C5: partial-failure isolation — for a queue holding `a, b, c` in that
order (distinct ids, `b` fresh), a submit callback that accepts `a` and `c`
and rejects `b` leaves, after one replay invocation, exactly `b` queued with
retry count 1, while `a` and `c` are removed from the queue and their
records deleted from the durable store. -/
theorem C5_partial_failure_isolation {α : Type} (f : PendingSync α → SubmitOutcome)
    (a b c : PendingSync α) (s : List (PendingSync α))
    (hfa : f a = SubmitOutcome.accepted) (hfb : f b = SubmitOutcome.rejected)
    (hfc : f c = SubmitOutcome.accepted) (hb0 : b.retries = 0)
    (hn : (([a, b, c] : List (PendingSync α)).map PendingSync.id).Nodup) :
    (syncWhenOnline f { store := s, syncQueue := [a, b, c] }).syncQueue
      = [{ b with retries := 1 }]
    ∧ (syncWhenOnline f { store := s, syncQueue := [a, b, c] }).store
      = storeDelete (storeDelete s a.id) c.id := by
  constructor
  · rw [syncWhenOnline_queue_eq f _ hn]
    simp [stepEffect, hfa, hfb, hfc, hb0, bumpItem]
  · show (syncStep f (syncStep f (syncStep f
        { store := s, syncQueue := [a, b, c] } a) b) c).store = _
    rw [syncStep_store_accepted f _ c hfc,
        syncStep_store_rejected_small f _ b hfb (by omega),
        syncStep_store_accepted f _ a hfa]

theorem C5_partial_failure_isolation_witness :
    (syncWhenOnline
        (fun it => if it.id = "b" then SubmitOutcome.rejected else SubmitOutcome.accepted)
        ({ store := [opA, opB, opC], syncQueue := [opA, opB, opC] } : SyncState Unit)).syncQueue
      = [{ opB with retries := 1 }]
    ∧ (syncWhenOnline
        (fun it => if it.id = "b" then SubmitOutcome.rejected else SubmitOutcome.accepted)
        ({ store := [opA, opB, opC], syncQueue := [opA, opB, opC] } : SyncState Unit)).store
      = storeDelete (storeDelete [opA, opB, opC] opA.id) opC.id :=
  C5_partial_failure_isolation
    (fun it => if it.id = "b" then SubmitOutcome.rejected else SubmitOutcome.accepted)
    opA opB opC [opA, opB, opC]
    (by decide) (by decide) (by decide) (by decide) (by decide)

/-- C7: enqueue atomicity — `addToSyncQueue` rejects exactly when the
durable write fails (backend failure or duplicate key), and then the whole
state, store and in-memory mirror alike, is exactly as before the call; it
never fails for any other reason (no capacity bound: success depends only
on the write outcome and key freshness, never on the queue's size), and on
success the new record (retry count 0) is stored and appended to the
mirror. -/
theorem C7_enqueue_atomic {α : Type} (st : SyncState α) (ok : Bool) (i : String)
    (t : SyncType) (a : SyncAction) (d : α) (ts : Nat) :
    ((addToSyncQueue st ok i t a d ts).1 = Except.error StorageFailure.writeFailed
      ↔ (ok = false ∨ ∃ r ∈ st.store, r.id = i))
    ∧ ((addToSyncQueue st ok i t a d ts).1 = Except.error StorageFailure.writeFailed
        → (addToSyncQueue st ok i t a d ts).2 = st)
    ∧ ((addToSyncQueue st ok i t a d ts).1 = Except.ok i
        → (addToSyncQueue st ok i t a d ts).2
            = { store := storeInsert st.store (mkOp i t a d ts),
                syncQueue := st.syncQueue ++ [mkOp i t a d ts] }) := by
  by_cases hc : (ok = true ∧ ∀ r ∈ st.store, r.id ≠ i)
  · rw [addToSyncQueue_pos hc]
    refine ⟨⟨?_, ?_⟩, ?_, ?_⟩
    · intro h
      simp at h
    · rintro (h | ⟨r, hr, he⟩)
      · rw [hc.1] at h
        simp at h
      · exact absurd he (hc.2 r hr)
    · intro h
      simp at h
    · intro _
      rfl
  · rw [addToSyncQueue_neg hc]
    refine ⟨⟨?_, ?_⟩, fun _ => rfl, ?_⟩
    · intro _
      rcases not_and_or.mp hc with h | h
      · exact Or.inl (by simpa using h)
      · right
        push_neg at h
        exact h
    · intro _
      rfl
    · intro h
      simp at h

theorem C7_enqueue_atomic_witness :
    ((addToSyncQueue ({ store := [opA], syncQueue := [opA] } : SyncState Unit)
        false "b" SyncType.inventory SyncAction.update () 1).1
      = Except.error StorageFailure.writeFailed
      ↔ ((false : Bool) = false ∨ ∃ r ∈ [opA], r.id = "b"))
    ∧ ((addToSyncQueue ({ store := [opA], syncQueue := [opA] } : SyncState Unit)
        false "b" SyncType.inventory SyncAction.update () 1).1
          = Except.error StorageFailure.writeFailed
        → (addToSyncQueue ({ store := [opA], syncQueue := [opA] } : SyncState Unit)
            false "b" SyncType.inventory SyncAction.update () 1).2
          = { store := [opA], syncQueue := [opA] })
    ∧ ((addToSyncQueue ({ store := [opA], syncQueue := [opA] } : SyncState Unit)
        false "b" SyncType.inventory SyncAction.update () 1).1 = Except.ok "b"
        → (addToSyncQueue ({ store := [opA], syncQueue := [opA] } : SyncState Unit)
            false "b" SyncType.inventory SyncAction.update () 1).2
          = { store := storeInsert [opA] (mkOp "b" SyncType.inventory SyncAction.update () 1),
              syncQueue := [opA] ++ [mkOp "b" SyncType.inventory SyncAction.update () 1] }) :=
  C7_enqueue_atomic { store := [opA], syncQueue := [opA] }
    false "b" SyncType.inventory SyncAction.update () 1

theorem filter_idem {α : Type} (p : α → Bool) (l : List α) :
    (l.filter p).filter p = l.filter p :=
  List.filter_eq_self.mpr (fun _ ha => (List.mem_filter.mp ha).2)

/-- C8: remove is idempotent and safe — it is a total operation (the
modelled `delete` succeeds on an absent key and the mirror filter always
succeeds, so it never throws), removing the same id twice equals removing
it once, and removing an id present neither in the store nor in the mirror
leaves the state exactly unchanged. -/
theorem C8_remove_idempotent {α : Type} (st : SyncState α) (i : String) :
    removeFromSyncQueue (removeFromSyncQueue st i) i = removeFromSyncQueue st i
    ∧ ((∀ r ∈ st.store, r.id ≠ i) → (∀ x ∈ st.syncQueue, x.id ≠ i) →
        removeFromSyncQueue st i = st) := by
  constructor
  · have hs : storeDelete (storeDelete st.store i) i = storeDelete st.store i :=
      filter_idem _ _
    have hq : ((st.syncQueue.filter (fun item => item.id ≠ i)).filter
        (fun item => item.id ≠ i)) = st.syncQueue.filter (fun item => item.id ≠ i) :=
      filter_idem _ _
    simp only [removeFromSyncQueue]
    rw [hs, hq]
  · intro h1 h2
    have hs : storeDelete st.store i = st.store := filter_keep h1
    have hq : st.syncQueue.filter (fun item => item.id ≠ i) = st.syncQueue :=
      filter_keep h2
    simp only [removeFromSyncQueue]
    rw [hs, hq]

theorem C8_remove_idempotent_witness :
    removeFromSyncQueue (removeFromSyncQueue
        ({ store := [opA], syncQueue := [opA] } : SyncState Unit) "z") "z"
      = removeFromSyncQueue ({ store := [opA], syncQueue := [opA] } : SyncState Unit) "z"
    ∧ ((∀ r ∈ [opA], PendingSync.id r ≠ "z") → (∀ x ∈ [opA], PendingSync.id x ≠ "z") →
        removeFromSyncQueue ({ store := [opA], syncQueue := [opA] } : SyncState Unit) "z"
          = { store := [opA], syncQueue := [opA] }) :=
  C8_remove_idempotent { store := [opA], syncQueue := [opA] } "z"

/-- C10: replay's only durable effect is whole-record deletion — after any
`syncWhenOnline` invocation the store is a subsequence of what it was (no
record is inserted or rewritten; retry-count increments live only in the
in-memory objects), so if every stored record carries retry count 0, as
enqueue writes them, every operation surviving into a reconstruction from
the durable store alone still shows retry count 0, regardless of how many
failed attempts preceded the reload. -/
theorem C10_replay_store_frame {α : Type} (f : PendingSync α → SubmitOutcome)
    (st : SyncState α) :
    ((syncWhenOnline f st).store).Sublist st.store
    ∧ ((∀ r ∈ st.store, r.retries = 0) →
        ∀ x ∈ getSyncQueue (reload (syncWhenOnline f st)), x.retries = 0) := by
  refine ⟨syncWhenOnline_store_sublist f st, ?_⟩
  intro h0 x hx
  have hx' : x ∈ (syncWhenOnline f st).store := hx
  exact h0 x ((syncWhenOnline_store_sublist f st).subset hx')

theorem C10_replay_store_frame_witness :
    ((syncWhenOnline (fun _ => SubmitOutcome.rejected)
        ({ store := [opA], syncQueue := [opA] } : SyncState Unit)).store).Sublist [opA]
    ∧ ((∀ r ∈ [opA], PendingSync.retries r = 0) →
        ∀ x ∈ getSyncQueue (reload (syncWhenOnline (fun _ => SubmitOutcome.rejected)
            ({ store := [opA], syncQueue := [opA] } : SyncState Unit))),
          PendingSync.retries x = 0) :=
  C10_replay_store_frame (fun _ => SubmitOutcome.rejected)
    { store := [opA], syncQueue := [opA] }

/-- C6: durability round-trip — starting from an empty service, enqueue
three operations (write oracle succeeding, generated ids pairwise distinct
and ascending in key order, as the timestamp-prefixed generator yields);
then the mirror lists the three records in enqueue order, a reload
(re-`init` plus `loadSyncQueue`, from the durable store alone) lists
exactly the same three records in the same order, and each carries retry
count 0. -/
theorem C6_durability_roundtrip {α : Type} (i1 i2 i3 : String)
    (t1 t2 t3 : SyncType) (a1 a2 a3 : SyncAction) (d1 d2 d3 : α) (ts1 ts2 ts3 : Nat)
    (h21 : idLt i2 i1 = false) (h31 : idLt i3 i1 = false) (h32 : idLt i3 i2 = false)
    (hne12 : i1 ≠ i2) (hne13 : i1 ≠ i3) (hne23 : i2 ≠ i3) :
    getSyncQueue (addToSyncQueue (addToSyncQueue (addToSyncQueue
        ({ store := [], syncQueue := [] } : SyncState α)
        true i1 t1 a1 d1 ts1).2 true i2 t2 a2 d2 ts2).2 true i3 t3 a3 d3 ts3).2
      = [mkOp i1 t1 a1 d1 ts1, mkOp i2 t2 a2 d2 ts2, mkOp i3 t3 a3 d3 ts3]
    ∧ getSyncQueue (reload (addToSyncQueue (addToSyncQueue (addToSyncQueue
        ({ store := [], syncQueue := [] } : SyncState α)
        true i1 t1 a1 d1 ts1).2 true i2 t2 a2 d2 ts2).2 true i3 t3 a3 d3 ts3).2)
      = [mkOp i1 t1 a1 d1 ts1, mkOp i2 t2 a2 d2 ts2, mkOp i3 t3 a3 d3 ts3]
    ∧ ∀ x ∈ getSyncQueue (reload (addToSyncQueue (addToSyncQueue (addToSyncQueue
        ({ store := [], syncQueue := [] } : SyncState α)
        true i1 t1 a1 d1 ts1).2 true i2 t2 a2 d2 ts2).2 true i3 t3 a3 d3 ts3).2),
        x.retries = 0 := by
  have e1 : addToSyncQueue ({ store := [], syncQueue := [] } : SyncState α) true i1 t1 a1 d1 ts1 = (Except.ok i1, { store := [mkOp i1 t1 a1 d1 ts1], syncQueue := [mkOp i1 t1 a1 d1 ts1] }) := by
    rw [addToSyncQueue_pos ⟨rfl, by simp⟩]
    rfl
  have e2 : addToSyncQueue ({ store := [mkOp i1 t1 a1 d1 ts1], syncQueue := [mkOp i1 t1 a1 d1 ts1] } : SyncState α) true i2 t2 a2 d2 ts2 = (Except.ok i2, { store := [mkOp i1 t1 a1 d1 ts1, mkOp i2 t2 a2 d2 ts2], syncQueue := [mkOp i1 t1 a1 d1 ts1, mkOp i2 t2 a2 d2 ts2] }) := by
    rw [addToSyncQueue_pos ⟨rfl, by simp [mkOp, hne12]⟩]
    simp [storeInsert, mkOp, h21]
  have e3 : addToSyncQueue ({ store := [mkOp i1 t1 a1 d1 ts1, mkOp i2 t2 a2 d2 ts2], syncQueue := [mkOp i1 t1 a1 d1 ts1, mkOp i2 t2 a2 d2 ts2] } : SyncState α) true i3 t3 a3 d3 ts3 = (Except.ok i3, { store := [mkOp i1 t1 a1 d1 ts1, mkOp i2 t2 a2 d2 ts2, mkOp i3 t3 a3 d3 ts3], syncQueue := [mkOp i1 t1 a1 d1 ts1, mkOp i2 t2 a2 d2 ts2, mkOp i3 t3 a3 d3 ts3] }) := by
    rw [addToSyncQueue_pos ⟨rfl, by simp [mkOp, hne13, hne23]⟩]
    simp [storeInsert, mkOp, h31, h32]
  simp only [e1, e2, e3]
  refine ⟨rfl, rfl, ?_⟩
  intro x hx
  have hx' : x ∈ [mkOp i1 t1 a1 d1 ts1, mkOp i2 t2 a2 d2 ts2, mkOp i3 t3 a3 d3 ts3] := hx
  simp only [List.mem_cons, List.not_mem_nil, or_false] at hx'
  rcases hx' with rfl | rfl | rfl
  · rfl
  · rfl
  · rfl

theorem C6_durability_roundtrip_witness :
    getSyncQueue (addToSyncQueue (addToSyncQueue (addToSyncQueue
        ({ store := [], syncQueue := [] } : SyncState Unit)
        true "1a" SyncType.transaction SyncAction.create () 10).2
        true "2b" SyncType.inventory SyncAction.update () 11).2
        true "3c" SyncType.customer SyncAction.delete () 12).2
      = [mkOp "1a" SyncType.transaction SyncAction.create () 10,
         mkOp "2b" SyncType.inventory SyncAction.update () 11,
         mkOp "3c" SyncType.customer SyncAction.delete () 12]
    ∧ getSyncQueue (reload (addToSyncQueue (addToSyncQueue (addToSyncQueue
        ({ store := [], syncQueue := [] } : SyncState Unit)
        true "1a" SyncType.transaction SyncAction.create () 10).2
        true "2b" SyncType.inventory SyncAction.update () 11).2
        true "3c" SyncType.customer SyncAction.delete () 12).2)
      = [mkOp "1a" SyncType.transaction SyncAction.create () 10,
         mkOp "2b" SyncType.inventory SyncAction.update () 11,
         mkOp "3c" SyncType.customer SyncAction.delete () 12]
    ∧ ∀ x ∈ getSyncQueue (reload (addToSyncQueue (addToSyncQueue (addToSyncQueue
        ({ store := [], syncQueue := [] } : SyncState Unit)
        true "1a" SyncType.transaction SyncAction.create () 10).2
        true "2b" SyncType.inventory SyncAction.update () 11).2
        true "3c" SyncType.customer SyncAction.delete () 12).2),
        PendingSync.retries x = 0 :=
  C6_durability_roundtrip "1a" "2b" "3c"
    SyncType.transaction SyncType.inventory SyncType.customer
    SyncAction.create SyncAction.update SyncAction.delete
    () () () 10 11 12
    (by decide) (by decide) (by decide) (by decide) (by decide) (by decide)
